import Mathlib

/-!
Verification of the lynx archetype-based columnar entity storage engine.

This file gives a shallow embedding, in Lean, of the core operations of the
lynx storage engine, translated from the Rust source:

* `src/ecs/simple_archetype.rs` — `SimpleArchetype`: `map`, `get`, `get_all`,
  `has`, `column_must_resize`, `insert_component`, `get_entity_count`,
  `set_entity_count`;
* `src/data_structures/simple_column.rs` — `SimpleColumn`: `insert`, `get`,
  `fill`;
* `lynx-derive/src/lib.rs` — the derived `Component` implementation
  (`COUNT`, `sizes`, `id`) and the derived `Signature::gen_ids` layout;
* `lynx-traits/src/lib.rs` — the blanket `Component` implementation for
  `Copy` types (primitives).

Columns are modelled as total functions from byte offsets to byte values;
component values as lists of bytes; type identities and counts as naturals.
Operations that can hit a `usize` underflow or an out-of-bounds slice index
in the source (which aborts the process both in debug builds, via the
overflow check, and in release builds, via the subsequent slice bounds
check) are modelled with an explicit `panic` outcome.
-/

namespace Lynx

/-- Error enum of `src/ecs/archetype.rs` (`ArchetypeError`). -/
inductive ArchetypeError where
  | ComponentNotFound
  | IndexOutOfBounds
  | FieldPositionOverlapsNextComponent
deriving DecidableEq, Repr

/-- Outcome of `SimpleArchetype::map`: a found column index, the
`ComponentNotFound` error, or a process abort (`usize` underflow /
out-of-bounds slice index). -/
inductive MapOutcome where
  | found (i : Nat)
  | notFound
  | panic
deriving DecidableEq, Repr

/-- The two-pointer scan loop of `SimpleArchetype::map`
(`src/ecs/simple_archetype.rs`, lines 98-109).  The Rust loop is
`while left <= right`, checking `type_to_col[left]` and `type_to_col[right]`
against `id`, then `left += 1; right -= 1`.  When `right` is `0` the
decrement `right -= 1` underflows `usize`: the debug build panics there, and
the release build wraps `right` to `usize::MAX` and panics on the following
out-of-bounds `type_to_col[right]`; both are modelled as `panic`.  The
recursion is structural on `right`. -/
def mapLoop (ttc : List Nat) (id : Nat) : Nat → Nat → MapOutcome
  | left, 0 =>
    if left ≤ 0 then
      if ttc.getD left 0 = id then .found left
      else if ttc.getD 0 0 = id then .found 0
      else .panic
    else .notFound
  | left, right + 1 =>
    if left ≤ right + 1 then
      if ttc.getD left 0 = id then .found left
      else if ttc.getD (right + 1) 0 = id then .found (right + 1)
      else mapLoop ttc id (left + 1) right
    else .notFound

/-- `SimpleArchetype::map::<T>` over the identity array `type_to_col`,
looking up identity `id`.  The Rust code computes
`right = type_to_col.len() - 1` before the loop; for an empty array this
`usize` subtraction underflows, which is modelled as `panic`. -/
def map (ttc : List Nat) (id : Nat) : MapOutcome :=
  match ttc.length with
  | 0 => .panic
  | n + 1 => mapLoop ttc id 0 n

/-- `SimpleArchetype::has::<T>` is `self.map::<T>().is_ok()`. -/
def has (ttc : List Nat) (id : Nat) : Bool :=
  match map ttc id with
  | .found _ => true
  | _ => false

/-- Outcome of `SimpleArchetype::get`: the absolute index of the returned
column, an error, or a process abort inherited from `map`. -/
inductive GetResult where
  | ok (col : Nat)
  | error (e : ArchetypeError)
  | panic
deriving DecidableEq, Repr

/-- `SimpleArchetype::get::<T>(field_position)`
(`src/ecs/simple_archetype.rs`, lines 150-166).  `ttc` is `type_to_col`,
`ncols` is `columns.len()`, `id` is `T::id()`, `cnt` is
`T::dismembered_type_count()` (that is, `T::COUNT`), `fp` is
`field_position`.  The checks are, in source order: `map` failure maps to
`ComponentNotFound`; `col + field_position >= columns.len()` maps to
`IndexOutOfBounds`; `col + field_position >= col + COUNT` maps to
`FieldPositionOverlapsNextComponent`; otherwise the column at absolute
index `col + field_position` is returned. -/
def get (ttc : List Nat) (ncols : Nat) (id cnt fp : Nat) : GetResult :=
  match map ttc id with
  | .panic => .panic
  | .notFound => .error .ComponentNotFound
  | .found col =>
    if ncols ≤ col + fp then .error .IndexOutOfBounds
    else if col + cnt ≤ col + fp then .error .FieldPositionOverlapsNextComponent
    else .ok (col + fp)

/-- Outcome of `SimpleArchetype::get_all`. -/
inductive GetAllResult where
  | ok (cols : List Nat)
  | error (e : ArchetypeError)
  | panic
deriving DecidableEq, Repr

/-- `SimpleArchetype::get_all::<T>` (`src/ecs/simple_archetype.rs`, lines
258-268).  After a successful `map`, the source allocates `slice` as the
empty slice `&mut []` and then executes
`for (index, column) in self.columns.iter().skip(col).enumerate()
 { slice[index] = column; }`.
Whenever at least one column exists at or after index `col` — that is,
whenever `col < columns.len()` — the first iteration indexes `slice[0]`
into a zero-length slice and panics; only when the loop body never runs is
the empty slice returned. -/
def get_all (ttc : List Nat) (ncols : Nat) (id : Nat) : GetAllResult :=
  match map ttc id with
  | .panic => .panic
  | .notFound => .error .ComponentNotFound
  | .found col =>
    if col < ncols then .panic else .ok []

/-- `SimpleArchetype::column_must_resize`
(`src/ecs/simple_archetype.rs`, lines 351-356): false below 4, otherwise
the power-of-two test `entity_count != 0 && entity_count & (entity_count - 1) == 0`. -/
def column_must_resize (entity_count : Nat) : Bool :=
  if entity_count < 4 then false
  else (entity_count != 0) && (entity_count &&& (entity_count - 1) == 0)

/-- `SimpleArchetype::set_entity_count(count: usize)` stores
`count as u32` into the `u32` field `entity_count`: a truncation
modulo `2 ^ 32`. -/
def set_entity_count (count : Nat) : Nat :=
  count % 2 ^ 32

/-- `SimpleArchetype::get_entity_count` returns `entity_count as usize`,
which widens the stored 32-bit value without change. -/
def get_entity_count (entity_count : Nat) : Nat :=
  entity_count

/-- `SimpleColumn::insert::<T>(index, data)`
(`src/data_structures/simple_column.rs`, lines 172-180): a raw
`ptr::write` of the `s`-byte value `v` at byte offset `index * size_of::<T>()`
(the pointer is cast to `*mut T` and offset by `index` elements).  The
buffer is the byte map `buf`; `s` is `size_of::<T>()` and `v` lists the
value's bytes in order. -/
def col_insert (s i : Nat) (v : List Nat) (buf : Nat → Nat) : Nat → Nat :=
  fun a => if i * s ≤ a ∧ a < i * s + s then v.getD (a - i * s) 0 else buf a

/-- `SimpleColumn::get::<T>(index)`
(`src/data_structures/simple_column.rs`, lines 194-198): a raw `ptr::read`
of `size_of::<T>()` bytes at byte offset `index * size_of::<T>()`. -/
def col_get (s i : Nat) (buf : Nat → Nat) : List Nat :=
  (List.range s).map fun j => buf (i * s + j)

/-- One iteration of the loop in `SimpleColumn::fill`
(`src/data_structures/simple_column.rs`, lines 200-207).  Iteration `i`
executes `copy_nonoverlapping(addr_of!(data), base.add(start + i), i)`:
it copies `i` whole elements of `T` from the address of the single value
`data` to element slots `start + i, ..., start + i + i - 1`.  The first
copied element (`j = 0`) is `data` itself; each further element (`j ≥ 1`)
is read from past the end of `data`, modelled by the ambient memory `junk`.
The buffer is modelled at element granularity. -/
def fill_iter (start i : Nat) (v : Nat) (junk : Nat → Nat) (buf : Nat → Nat) : Nat → Nat :=
  fun a =>
    if start + i ≤ a ∧ a < start + i + i then
      (if a = start + i then v else junk (a - (start + i)))
    else buf a

/-- `SimpleColumn::fill::<T>(start, stop, data)`: the loop
`for i in 0..(stop - start)` applying `fill_iter` for each `i` in order. -/
def col_fill (start stop : Nat) (v : Nat) (junk : Nat → Nat) (buf : Nat → Nat) : Nat → Nat :=
  (List.range (stop - start)).foldl (fun b i => fill_iter start i v junk b) buf

/-- `SimpleArchetype::insert_component::<T>`
(`src/ecs/simple_archetype.rs`, lines 383-410).  For each leaf `k` of
`T::sizes()`, the source copies `sizes[k]` bytes from source offset
`last_index` (the running sum of the previous leaf sizes) inside the
component value to destination address
`columns[col + k].data.as_ptr().add(self.entity_count as usize)` — a byte
offset of exactly `entity_count`.  `cols k` is the byte map of column
`col + k`; `comp` lists the component value's raw bytes. -/
def insert_component (sizes : List Nat) (entity_count : Nat) (comp : List Nat)
    (cols : Nat → Nat → Nat) : Nat → Nat → Nat :=
  fun k b =>
    if k < sizes.length ∧ entity_count ≤ b ∧ b < entity_count + sizes.getD k 0 then
      comp.getD ((sizes.take k).sum + (b - entity_count)) 0
    else cols k b

/-- Modelled from the spec, for comparison with `insert_component`: the
spec (§4.3, row insertion) states that leaf `k` is written "at byte offset
`row_count * leaf_size_k` inside Column `map::<T>() + k`". -/
def insert_component_claimed (sizes : List Nat) (entity_count : Nat) (comp : List Nat)
    (cols : Nat → Nat → Nat) : Nat → Nat → Nat :=
  fun k b =>
    if k < sizes.length ∧ entity_count * sizes.getD k 0 ≤ b ∧
        b < entity_count * sizes.getD k 0 + sizes.getD k 0 then
      comp.getD ((sizes.take k).sum + (b - entity_count * sizes.getD k 0)) 0
    else cols k b

/-!
Value types and the derived `Component` implementation.

A value type is either a primitive (the blanket `impl<T: Copy> Component`
of `lynx-traits/src/lib.rs`, lines 51-69) carrying its byte size, or a
composite (`#[derive(Component)]`, `lynx-derive/src/lib.rs`, lines 11-96)
carrying its ordered field list.  The two-sort mutual inductive mirrors
the struct/field-list structure of the derive macro.
-/

mutual
inductive VType where
  | prim (sz : Nat)
  | comp (fields : VTList)
deriving DecidableEq, Repr
inductive VTList where
  | nil
  | cons (hd : VType) (tl : VTList)
deriving DecidableEq, Repr
end

mutual
/-- `Component::COUNT`.  Primitives have `COUNT = 1` (blanket impl);
a derived composite has `COUNT = 0 + Σ field COUNTs`
(`lynx-derive/src/lib.rs`, line 64). -/
def count : VType → Nat
  | .prim _ => 1
  | .comp fs => countL fs
/-- Sum of `Component::COUNT` over a field list. -/
def countL : VTList → Nat
  | .nil => 0
  | .cons t ts => count t + countL ts
end

mutual
/-- `std::mem::size_of` for the `#[repr(packed)]` value types of the
source: a primitive's size, or the sum of the field sizes. -/
def bsize : VType → Nat
  | .prim s => s
  | .comp fs => bsizeL fs
/-- Sum of byte sizes over a field list. -/
def bsizeL : VTList → Nat
  | .nil => 0
  | .cons t ts => bsize t + bsizeL ts
end

mutual
/-- `Component::sizes()`.  The blanket impl returns `&[size_of::<T>()]`
(`lynx-traits/src/lib.rs`, line 67).  The derived impl
(`lynx-derive/src/lib.rs`, lines 73-88) matches on `size_of::<Self>()`:
a zero-sized composite returns `vec![0]` — one entry — and any other
composite returns the concatenation of its fields' `sizes()`. -/
def sizes : VType → List Nat
  | .prim s => [s]
  | .comp fs => if bsizeL fs = 0 then [0] else sizesL fs
/-- Concatenation of `sizes()` over a field list. -/
def sizesL : VTList → List Nat
  | .nil => []
  | .cons t ts => sizes t ++ sizesL ts
end

mutual
/-- A value type none of whose composite subterms is zero-sized.  On such
types the `vec![0]` special case of the derived `sizes()` is never taken. -/
def good : VType → Bool
  | .prim _ => true
  | .comp fs => (bsizeL fs != 0) && goodL fs
/-- `good` on every element of a field list. -/
def goodL : VTList → Bool
  | .nil => true
  | .cons t ts => good t && goodL ts
end

/-!
The derived `Signature::gen_ids` layout (`lynx-derive/src/lib.rs`, lines
146-158): for each declared value type, push its `Component::id()` and
then `COUNT - 1` zero-padding slots.  A declaration is modelled as the
pair `(id, COUNT)`; all uses below assume `COUNT ≥ 1` (for `COUNT = 0`
the source's `0..COUNT - 1` range itself underflows `usize`).  Composite
identities are issued from the counter `NEXT_ID` starting at 1
(`lynx-derive/src/lib.rs`, line 9), while every primitive shares the
sentinel identity 0 (`lynx-traits/src/lib.rs`, lines 62-64).
-/

/-- `Signature::gen_ids()` over the declaration list. -/
def gen_ids : List (Nat × Nat) → List Nat
  | [] => []
  | d :: ds => (d.1 :: List.replicate (d.2 - 1) 0) ++ gen_ids ds

/-- Starting column index of the `m`-th declared value type: the sum of
the leaf counts of the declarations before it. -/
def decl_start (decls : List (Nat × Nat)) (m : Nat) : Nat :=
  ((decls.take m).map Prod.snd).sum

/-- `j` is a zero-padding slot of `gen_ids decls`: it lies strictly inside
the column run of some declared value type with at least two leaves,
after that type's identity slot. -/
def is_padding_slot (decls : List (Nat × Nat)) (j : Nat) : Bool :=
  (List.range decls.length).any fun m =>
    decide (2 ≤ (decls.getD m (0, 0)).2) &&
    decide (decl_start decls m < j) &&
    decide (j < decl_start decls m + (decls.getD m (0, 0)).2)

/-! Helper lemmas. -/

/-- A power of two shares no bit with its predecessor. -/
theorem two_pow_land_pred (k : Nat) : 2 ^ k &&& (2 ^ k - 1) = 0 := by
  apply Nat.eq_of_testBit_eq
  intro i
  rw [Nat.testBit_land, Nat.zero_testBit, Nat.testBit_two_pow, Nat.testBit_two_pow_sub_one]
  by_cases h : k = i
  · subst h; simp
  · simp [h]

/-- A positive number sharing no bit with its predecessor is a power of two. -/
theorem land_pred_eq_zero_pow2 (n : Nat) (hn : 0 < n) (h : n &&& (n - 1) = 0) :
    ∃ k, n = 2 ^ k := by
  refine ⟨Nat.log 2 n, ?_⟩
  have h1 : 2 ^ Nat.log 2 n ≤ n := Nat.pow_log_le_self 2 (Nat.pos_iff_ne_zero.mp hn)
  have h2 : n < 2 ^ (Nat.log 2 n + 1) := Nat.lt_pow_succ_log_self (by norm_num) n
  by_contra hne
  have hlt : 2 ^ Nat.log 2 n < n := lt_of_le_of_ne h1 (fun e => hne e.symm)
  have hpow : 2 ^ (Nat.log 2 n + 1) = 2 * 2 ^ Nat.log 2 n := by ring
  set M := 2 ^ Nat.log 2 n with hM
  have h2' : n < 2 * M := by rw [hpow] at h2; exact h2
  have hd1 : n / M = 1 := Nat.div_eq_of_lt_le (by omega) (by omega)
  have hd2 : (n - 1) / M = 1 := Nat.div_eq_of_lt_le (by omega) (by omega)
  have t1 : n.testBit (Nat.log 2 n) = true := by
    rw [Nat.testBit_to_div_mod, ← hM, hd1]; decide
  have t2 : (n - 1).testBit (Nat.log 2 n) = true := by
    rw [Nat.testBit_to_div_mod, ← hM, hd2]; decide
  have tl : (n &&& (n - 1)).testBit (Nat.log 2 n) = true := by
    rw [Nat.testBit_land, t1, t2]; rfl
  rw [h, Nat.zero_testBit] at tl
  exact Bool.false_ne_true tl

/-- `fill_iter` never touches element slot `start`: iteration `i` writes
only slots in `[start + i, start + 2i)`, which excludes `start` (iteration
0 has copy count 0 and writes nothing at all). -/
theorem fill_iter_start (start i : Nat) (v : Nat) (junk b : Nat → Nat) :
    fill_iter start i v junk b start = b start := by
  unfold fill_iter
  rw [if_neg]
  rintro ⟨h1, h2⟩
  omega

/-- The whole `fill` loop preserves the value at slot `start`. -/
theorem fill_fold_start (start : Nat) (v : Nat) (junk : Nat → Nat) :
    ∀ (l : List Nat) (b : Nat → Nat),
      (l.foldl (fun b i => fill_iter start i v junk b) b) start = b start := by
  intro l
  induction l with
  | nil => intro b; rfl
  | cons x xs ih =>
    intro b
    simp only [List.foldl_cons]
    rw [ih, fill_iter_start]

/-!
Claim theorems.
-/

/-- C3: `column_must_resize()` is true exactly on the powers of two that
are at least 4 (for any entity count representable in the `u32` field),
and false on every other count, including 0 through 3. -/
theorem column_must_resize_iff (n : Nat) (h32 : n < 2 ^ 32) :
    column_must_resize n = true ↔ 4 ≤ n ∧ ∃ k, n = 2 ^ k := by
  unfold column_must_resize
  by_cases h4 : n < 4
  · rw [if_pos h4]
    simp only [Bool.false_eq_true, false_iff]
    rintro ⟨h, _⟩
    omega
  · rw [if_neg h4]
    simp only [Bool.and_eq_true, bne_iff_ne, beq_iff_eq, ne_eq]
    constructor
    · rintro ⟨hne, hland⟩
      exact ⟨by omega, land_pred_eq_zero_pow2 n (by omega) hland⟩
    · rintro ⟨h4', ⟨k, rfl⟩⟩
      exact ⟨by omega, two_pow_land_pred k⟩

/-- Witness for C3 at entity count 8 = 2 ^ 3. -/
theorem column_must_resize_iff_witness : column_must_resize 8 = true :=
  (column_must_resize_iff 8 (by norm_num)).mpr ⟨by norm_num, 3, rfl⟩

/-- C10: the row count round-trips through the `u32` field modulo `2 ^ 32`,
and the round-trip is the identity exactly for counts below `2 ^ 32`. -/
theorem entity_count_roundtrip (n : Nat) :
    get_entity_count (set_entity_count n) = n % 2 ^ 32 ∧
    (get_entity_count (set_entity_count n) = n ↔ n < 2 ^ 32) := by
  refine ⟨rfl, ?_⟩
  unfold get_entity_count set_entity_count
  constructor
  · intro h
    rw [← h]
    exact Nat.mod_lt _ (by norm_num)
  · exact Nat.mod_eq_of_lt

/-- C5: contrary to the claim, `map` does not return
`Err(ComponentNotFound)` on every archetype when the identity is absent:
for a `type_to_col` array of length 0 the initial `len() - 1` underflows,
and for length 1 the loop's `right -= 1` underflows, aborting the process;
only from length 2 on does the scan return the error. -/
theorem map_underflow_panics :
    map [] 5 = .panic ∧ map [0] 5 = .panic ∧ map [0, 3] 5 = .notFound := by
  decide

/-- C1: contrary to the claim, `insert_component` writes leaf `k` at byte
offset `entity_count` — not `entity_count * leaf_size_k` — inside its
column.  For a single 4-byte leaf with bytes `[10, 20, 30, 40]` inserted
at row 1 into a zeroed column, the code puts the first byte at offset 1
(offset 4 receives the last byte), while the claimed layout puts the first
byte at offset 4 and leaves offset 1 untouched. -/
theorem insert_component_offset_divergence :
    insert_component [4] 1 [10, 20, 30, 40] (fun _ _ => 0) 0 1 = 10 ∧
    insert_component [4] 1 [10, 20, 30, 40] (fun _ _ => 0) 0 4 = 40 ∧
    insert_component_claimed [4] 1 [10, 20, 30, 40] (fun _ _ => 0) 0 4 = 10 ∧
    insert_component_claimed [4] 1 [10, 20, 30, 40] (fun _ _ => 0) 0 1 = 0 := by
  decide

/-- C7: contrary to the claim, `fill(start, stop, v)` never writes element
slot `start` (the `copy_nonoverlapping` count is the loop index, which is
0 on the first iteration), so the first slot of the range keeps its old
value: filling `[0, 2)` of a zeroed column with 7 leaves slot 0 at 0. -/
theorem fill_misses_first_slot :
    (∀ start stop v junk buf, col_fill start stop v junk buf start = buf start) ∧
    col_fill 0 2 7 (fun _ => 0) (fun _ => 0) 0 ≠ 7 := by
  constructor
  · intro start stop v junk buf
    exact fill_fold_start start v junk (List.range (stop - start)) buf
  · decide

/-- C8: contrary to the claim, `get_all` panics for every component
present in the archetype: it assigns the columns into the zero-length
slice `&mut []`, so the first loop iteration indexes out of bounds.  On
the layout `[A (id 1, 2 leaves), B (id 2, 1 leaf)]` both lookups abort;
only an absent identity returns an error. -/
theorem get_all_empty_slice_panics :
    get_all [1, 0, 2] 3 1 = .panic ∧ get_all [1, 0, 2] 3 2 = .panic ∧
    get_all [1, 0, 2] 3 7 = .error .ComponentNotFound := by
  decide

/-- C6: Column round-trip.  Writing an `s`-byte value `v` at element index
`i` with `insert::<T>` and reading element `i` back with `get::<T>` (same
type, hence same element size `v.length`) returns exactly the bytes of
`v`, for any index within the column's capacity of `cap` bytes. -/
theorem col_insert_get_roundtrip (v : List Nat) (i cap : Nat) (buf : Nat → Nat)
    (hcap : (i + 1) * v.length ≤ cap) :
    col_get v.length i (col_insert v.length i v buf) = v := by
  apply List.ext_getElem
  · simp [col_get]
  · intro j hj hj2
    simp only [col_get, List.getElem_map, List.getElem_range, col_insert]
    rw [if_pos ⟨Nat.le_add_right _ _, by omega⟩, Nat.add_sub_cancel_left]
    exact List.getD_eq_getElem (l := v) (d := 0) hj2

/-- Witness for C6: a 4-byte value at index 1 in a column of 8 bytes. -/
theorem col_insert_get_roundtrip_witness :
    col_get 4 1 (col_insert 4 1 [10, 20, 30, 40] (fun _ => 0)) = [10, 20, 30, 40] :=
  col_insert_get_roundtrip [10, 20, 30, 40] 1 8 (fun _ => 0) (by norm_num)

/-- C4: field addressing on the layout `type_to_col = [1, 0, 2]`
(type A: identity 1, 2 leaves; type B: identity 2, 1 leaf; 3 columns).
`get::<A>(0)`, `get::<A>(1)` and `get::<B>(0)` resolve to columns 0, 1
and 2; `get::<A>(2)` fails with `FieldPositionOverlapsNextComponent`;
`get::<B>(1)` fails with `IndexOutOfBounds`; `get::<U>(0)` for any
identity absent from the array fails with `ComponentNotFound`. -/
theorem get_field_addressing (u c : Nat) (hu1 : u ≠ 1) (hu0 : u ≠ 0) (hu2 : u ≠ 2) :
    get [1, 0, 2] 3 1 2 0 = .ok 0 ∧
    get [1, 0, 2] 3 1 2 1 = .ok 1 ∧
    get [1, 0, 2] 3 2 1 0 = .ok 2 ∧
    get [1, 0, 2] 3 1 2 2 = .error .FieldPositionOverlapsNextComponent ∧
    get [1, 0, 2] 3 2 1 1 = .error .IndexOutOfBounds ∧
    get [1, 0, 2] 3 u c 0 = .error .ComponentNotFound := by
  refine ⟨by decide, by decide, by decide, by decide, by decide, ?_⟩
  have e1 : (1 : Nat) ≠ u := Ne.symm hu1
  have e0 : (0 : Nat) ≠ u := Ne.symm hu0
  have e2 : (2 : Nat) ≠ u := Ne.symm hu2
  simp [get, map, mapLoop, e1, e0, e2]

/-- Witness for C4 at the absent identity 7 with leaf count 5. -/
theorem get_field_addressing_witness :
    get [1, 0, 2] 3 7 5 0 = .error .ComponentNotFound :=
  (get_field_addressing 7 5 (by decide) (by decide) (by decide)).2.2.2.2.2

mutual
/-- `sizes().len() = COUNT` for value types with no zero-sized composite
subterm (mutual helper over value types). -/
theorem sizes_len_aux (t : VType) (h : good t = true) : (sizes t).length = count t := by
  cases t with
  | prim s => simp [sizes, count]
  | comp fs =>
    simp only [good, Bool.and_eq_true, bne_iff_ne] at h
    simp [sizes, count, h.1, sizesL_len_aux fs h.2]
/-- `sizes().len() = COUNT` summed over a field list (mutual helper). -/
theorem sizesL_len_aux (ts : VTList) (h : goodL ts = true) :
    (sizesL ts).length = countL ts := by
  cases ts with
  | nil => simp [sizesL, countL]
  | cons t ts =>
    simp only [goodL, Bool.and_eq_true] at h
    simp [sizesL, countL, sizes_len_aux t h.1, sizesL_len_aux ts h.2]
end

/-- C2 (amended): `sizes(T)` has exactly `COUNT(T)` entries for every
value type `T` none of whose composite subterms is zero-sized.  (For a
zero-sized composite the derived `sizes()` takes the `vec![0]` branch and
returns one entry although `COUNT = 0`; see the counterexample.) -/
theorem sizes_length_eq_count_of_good (t : VType) (h : good t = true) :
    (sizes t).length = count t :=
  sizes_len_aux t h

/-- Counterexample to C2 as stated: a fully-marker composite (for example
the unit struct `Enemy`) has `COUNT = 0` but `sizes() = [0]`, one entry
rather than the empty sequence. -/
theorem marker_sizes_single_zero :
    count (VType.comp .nil) = 0 ∧ sizes (VType.comp .nil) = [0] ∧
    (sizes (VType.comp .nil)).length ≠ count (VType.comp .nil) := by
  decide

/-- Witness for C2 on a two-field composite of 4-byte primitives
(the `Vector2` shape). -/
theorem sizes_length_eq_count_witness :
    good (VType.comp (.cons (.prim 4) (.cons (.prim 4) .nil))) = true ∧
    (sizes (VType.comp (.cons (.prim 4) (.cons (.prim 4) .nil)))).length =
      count (VType.comp (.cons (.prim 4) (.cons (.prim 4) .nil))) :=
  ⟨by decide, sizes_length_eq_count_of_good _ (by decide)⟩

/-- If the identity occurs at some position between the two pointers, the
scan loop finds a position holding it (and in particular cannot reach the
underflowing decrement). -/
theorem mapLoop_finds (ttc : List Nat) (id : Nat) :
    ∀ right left p, left ≤ p → p ≤ right → ttc.getD p 0 = id →
      ∃ j, mapLoop ttc id left right = .found j ∧ j ≤ right ∧ ttc.getD j 0 = id := by
  intro right
  induction right with
  | zero =>
    intro left p h1 h2 h3
    have hp : p = 0 := Nat.le_zero.mp h2
    have hl : left = 0 := Nat.le_zero.mp (hp ▸ h1)
    subst hp; subst hl
    refine ⟨0, ?_, Nat.le_refl 0, h3⟩
    simp only [mapLoop]
    rw [if_pos (Nat.le_refl 0), if_pos h3]
  | succ r ih =>
    intro left p h1 h2 h3
    have hle : left ≤ r + 1 := Nat.le_trans h1 h2
    by_cases c1 : ttc.getD left 0 = id
    · refine ⟨left, ?_, hle, c1⟩
      simp only [mapLoop]
      rw [if_pos hle, if_pos c1]
    by_cases c2 : ttc.getD (r + 1) 0 = id
    · refine ⟨r + 1, ?_, Nat.le_refl _, c2⟩
      simp only [mapLoop]
      rw [if_pos hle, if_neg c1, if_pos c2]
    · have hpl : left + 1 ≤ p := by
        by_cases h : p = left
        · exact absurd (h ▸ h3) c1
        · omega
      have hpr : p ≤ r := by
        by_cases h : p = r + 1
        · exact absurd (h ▸ h3) c2
        · omega
      obtain ⟨j, hj1, hj2, hj3⟩ := ih (left + 1) p hpl hpr h3
      refine ⟨j, ?_, Nat.le_succ_of_le hj2, hj3⟩
      simp only [mapLoop]
      rw [if_pos hle, if_neg c1, if_neg c2]
      exact hj1

/-- If the identity occurs anywhere in `type_to_col`, `map` returns a
found index holding that identity. -/
theorem map_finds (ttc : List Nat) (id : Nat) (hmem : id ∈ ttc) :
    ∃ j, map ttc id = .found j ∧ j < ttc.length ∧ ttc.getD j 0 = id := by
  obtain ⟨p, hp, hget⟩ := List.getElem_of_mem hmem
  cases hlen : ttc.length with
  | zero => omega
  | succ n =>
    have hgetD : ttc.getD p 0 = id := by
      rw [List.getD_eq_getElem (l := ttc) (d := 0) hp, hget]
    obtain ⟨j, hj1, hj2, hj3⟩ :=
      mapLoop_finds ttc id n 0 p (Nat.zero_le p) (by omega) hgetD
    exact ⟨j, by rw [map, hlen]; exact hj1, by omega, hj3⟩

/-- A signature that declares a composite with two or more leaves emits at
least one zero-padding slot, so 0 occurs in `gen_ids`. -/
theorem zero_mem_gen_ids (decls : List (Nat × Nat)) (hm : ∃ d ∈ decls, 2 ≤ d.2) :
    0 ∈ gen_ids decls := by
  induction decls with
  | nil => obtain ⟨d, hd, _⟩ := hm; cases hd
  | cons d ds ih =>
    obtain ⟨e, he, h2⟩ := hm
    rcases List.mem_cons.mp he with rfl | hmem
    · have hrep : (0 : Nat) ∈ List.replicate (e.2 - 1) 0 :=
        List.mem_replicate.mpr ⟨by omega, rfl⟩
      show 0 ∈ (e.1 :: List.replicate (e.2 - 1) 0) ++ gen_ids ds
      exact List.mem_append.mpr (Or.inl (List.mem_cons_of_mem _ hrep))
    · have hrec := ih ⟨e, hmem, h2⟩
      show 0 ∈ (d.1 :: List.replicate (d.2 - 1) 0) ++ gen_ids ds
      exact List.mem_append.mpr (Or.inr hrec)

/-- Unfolding of `decl_start` past the head declaration. -/
theorem decl_start_cons_succ (d : Nat × Nat) (ds : List (Nat × Nat)) (m : Nat) :
    decl_start (d :: ds) (m + 1) = d.2 + decl_start ds m := by
  simp [decl_start]

/-- Propositional form of `is_padding_slot`. -/
theorem is_padding_slot_iff (decls : List (Nat × Nat)) (j : Nat) :
    is_padding_slot decls j = true ↔
      ∃ m, m < decls.length ∧ 2 ≤ (decls.getD m (0, 0)).2 ∧
        decl_start decls m < j ∧ j < decl_start decls m + (decls.getD m (0, 0)).2 := by
  simp [is_padding_slot, List.any_eq_true, List.mem_range, and_assoc]

/-- In a layout whose declared identities are all nonzero (no declared
primitive) and whose leaf counts are all positive, every slot holding
identity 0 is a padding slot of a multi-leaf declaration. -/
theorem padding_of_zero :
    ∀ (decls : List (Nat × Nat)), (∀ d ∈ decls, 1 ≤ d.2) → (∀ d ∈ decls, d.1 ≠ 0) →
    ∀ j, j < (gen_ids decls).length → (gen_ids decls).getD j 0 = 0 →
      is_padding_slot decls j = true := by
  intro decls
  induction decls with
  | nil =>
    intro _ _ j hj _
    simp [gen_ids] at hj
  | cons d ds ih =>
    intro hc hid j hj hz
    have hd2 : 1 ≤ d.2 := hc d (List.mem_cons_self d ds)
    have hd1 : d.1 ≠ 0 := hid d (List.mem_cons_self d ds)
    have hlen : (gen_ids (d :: ds)).length = d.2 + (gen_ids ds).length := by
      show ((d.1 :: List.replicate (d.2 - 1) 0) ++ gen_ids ds).length = _
      simp [List.length_append, List.length_replicate]
      omega
    rcases Nat.lt_or_ge j d.2 with hjd | hjd
    · rcases Nat.eq_zero_or_pos j with rfl | hj0
      · exfalso
        apply hd1
        have hhead : (gen_ids (d :: ds)).getD 0 0 = d.1 := rfl
        rw [hhead] at hz
        exact hz
      · rw [is_padding_slot_iff]
        refine ⟨0, by simp, ?_, ?_, ?_⟩
        · show 2 ≤ d.2
          omega
        · show decl_start (d :: ds) 0 < j
          simp [decl_start]
          omega
        · show j < decl_start (d :: ds) 0 + d.2
          simp [decl_start]
          omega
    · have hchead : gen_ids (d :: ds) = (d.1 :: List.replicate (d.2 - 1) 0) ++ gen_ids ds := rfl
      have hclen : (d.1 :: List.replicate (d.2 - 1) 0).length = d.2 := by
        simp [List.length_replicate]
        omega
      have hz' : (gen_ids ds).getD (j - d.2) 0 = 0 := by
        rw [hchead, List.getD_append_right, hclen] at hz
        · exact hz
        · rw [hclen]
          exact hjd
      have hjlt : j - d.2 < (gen_ids ds).length := by
        rw [hlen] at hj
        omega
      have hpad := ih (fun e he => hc e (List.mem_cons_of_mem d he))
        (fun e he => hid e (List.mem_cons_of_mem d he)) (j - d.2) hjlt hz'
      rw [is_padding_slot_iff] at hpad ⊢
      obtain ⟨m, hm1, hm2, hm3, hm4⟩ := hpad
      have hsucc : (d :: ds).getD (m + 1) (0, 0) = ds.getD m (0, 0) := rfl
      refine ⟨m + 1, by simp [List.length_cons]; omega, ?_, ?_, ?_⟩
      · rw [hsucc]
        exact hm2
      · rw [decl_start_cons_succ]
        omega
      · rw [decl_start_cons_succ, hsucc]
        omega

/-- C9 (amended): in every archetype whose signature (with positive leaf
counts throughout) declares at least one composite with two or more
leaves, the layout contains the shared primitive sentinel identity 0 as
padding, so `has::<P>()` is true for every primitive `P` even if no
primitive was declared; and when additionally no primitive type is
declared (all declared identities nonzero), `map::<P>()` resolves to a
padding slot of a multi-leaf composite.  (When a primitive is declared,
its own slot also carries identity 0 and can be found first; see the
counterexample.) -/
theorem map_primitive_resolves_to_padding :
    (∀ decls : List (Nat × Nat), (∀ d ∈ decls, 1 ≤ d.2) → (∃ d ∈ decls, 2 ≤ d.2) →
      has (gen_ids decls) 0 = true) ∧
    (∀ decls : List (Nat × Nat), (∀ d ∈ decls, 1 ≤ d.2) → (∀ d ∈ decls, d.1 ≠ 0) →
      (∃ d ∈ decls, 2 ≤ d.2) →
      ∃ j, map (gen_ids decls) 0 = .found j ∧ is_padding_slot decls j = true) := by
  constructor
  · intro decls _ hm
    obtain ⟨j, hmap, _, _⟩ := map_finds (gen_ids decls) 0 (zero_mem_gen_ids decls hm)
    rw [has, hmap]
  · intro decls hc hid hm
    obtain ⟨j, hmap, hlt, hz⟩ := map_finds (gen_ids decls) 0 (zero_mem_gen_ids decls hm)
    exact ⟨j, hmap, padding_of_zero decls hc hid j hlt hz⟩

/-- Witness for C9: a signature declaring one two-leaf composite with
identity 7; `map` of the primitive sentinel resolves to its padding slot. -/
theorem map_primitive_resolves_to_padding_witness :
    has (gen_ids [(7, 2)]) 0 = true ∧
    (∃ j, map (gen_ids [(7, 2)]) 0 = .found j ∧ is_padding_slot [(7, 2)] j = true) :=
  ⟨map_primitive_resolves_to_padding.1 [(7, 2)] (by decide) (by decide),
   map_primitive_resolves_to_padding.2 [(7, 2)] (by decide) (by decide) (by decide)⟩

/-- Counterexample to C9 as stated: in the layout of a signature declaring
a primitive (identity 0, 1 leaf) followed by a two-leaf composite
(identity 7), `gen_ids` is `[0, 7, 0]` and `map` of a primitive resolves
to index 0 — the declared primitive's own slot, not a padding slot of the
composite. -/
theorem map_primitive_hits_declared_primitive_slot :
    map (gen_ids [(0, 1), (7, 2)]) 0 = .found 0 ∧
    is_padding_slot [(0, 1), (7, 2)] 0 = false := by
  decide

end Lynx
